import Mathlib

/-!
# Verification of sverchok node algorithms

Shallow embedding of three sverchok node source files:
* `nodes/modifier_make/bevel_curve.py` (`SvBevelCurveNode`): curve-to-mesh sweep
  ("bevel a curve"), with taper/twist modulation, orientation frames, stitching,
  caps and cyclic closure;
* `nodes/modifier_change/split_mesh_elements.py` (`split_by_vertices`);
* `nodes/field/vector_field_eval.py` (`SvVectorFieldEvaluateNode.process`).

Host libraries that the source calls but that are not part of the repository
(Blender's `mathutils` matrix/vector algebra and the `bmesh` buffer) are
abstracted behind explicit interface structures (`MathLib`), exactly as the
spec lists them as external collaborators.  Repository helpers that are not
under `src/` (the spline classes of `sverchok.utils.geom`, `fixed_iter`,
`polygons_to_edges`) are modelled from the spec where a claim depends on them;
each such definition carries a doc comment starting `Modelled from the spec:`.

Numbers are embedded as exact rationals (`ℚ`) in place of Python floats; all
claims settled here depend only on values where float evaluation is exact.
Python exceptions are embedded as `Except String`, carrying the message or the
Python exception class name of the corresponding `raise`.
-/

/-- A 3-component vector (`mathutils.Vector` restricted to 3d, with exact
rational coordinates). -/
structure Vec3 where
  x : ℚ
  y : ℚ
  z : ℚ
deriving DecidableEq, Repr, Inhabited

/-- `Vector((0,0,0))`. -/
def vzero : Vec3 := ⟨0, 0, 0⟩

/-- The unit vector `Vector((1,0,0))`. -/
def vX : Vec3 := ⟨1, 0, 0⟩

/-- The unit vector `Vector((0,1,0))`. -/
def vY : Vec3 := ⟨0, 1, 0⟩

/-- The unit vector `Vector((0,0,1))`. -/
def vZ : Vec3 := ⟨0, 0, 1⟩

/-- Component read `v[i]` of a `mathutils.Vector`. -/
def Vec3.get (v : Vec3) (i : Fin 3) : ℚ :=
  if i = 0 then v.x else if i = 1 then v.y else v.z

/-- Component write `v[i] = q` of a `mathutils.Vector`. -/
def Vec3.set (v : Vec3) (i : Fin 3) (q : ℚ) : Vec3 :=
  if i = 0 then { v with x := q } else if i = 1 then { v with y := q } else { v with z := q }

/-- Componentwise vector addition (`mathutils` `+`). -/
def vadd (a b : Vec3) : Vec3 := ⟨a.x + b.x, a.y + b.y, a.z + b.z⟩

/-- The three-valued axis enumeration of the node's `orient_axis` / `up_axis`
`EnumProperty` (items `X`, `Y`, `Z`). -/
inductive Axis where
  | X
  | Y
  | Z
deriving DecidableEq, Repr

/-- The identifier string of an axis item, as stored in the `EnumProperty`. -/
def axisName : Axis → String
  | .X => "X"
  | .Y => "Y"
  | .Z => "Z"

/-- `'XYZ'.index(self.orient_axis)` (source `orient_axis_idx` property). -/
def orient_axis_idx : Axis → Fin 3
  | .X => 0
  | .Y => 1
  | .Z => 2

/-- The per-node configuration of `SvBevelCurveNode`: all `bpy.props`
properties read by the algorithm.  `algorithm` is kept as a raw string because
claim C8 quantifies over tokens outside the recognized set; the remaining
string-valued modes mirror the source's string-valued `EnumProperty` items. -/
structure Cfg where
  algorithm : String
  orient_axis : Axis
  up_axis : Axis
  bevel_mode : String
  taper_mode : String
  twist_mode : String
  metric : String
  taper_metric : String
  is_cyclic : Bool
  flip_curve : Bool
  flip_taper : Bool
  flip_twist : Bool
  cap_start : Bool
  cap_end : Bool
  separate_scale : Bool
  tangent_precision : ℚ
deriving Repr

/-- An interpolating spline as consumed by the sweep: position and tangent as
pure functions of the parameter (the tangent also takes the finite-difference
step `h`).  This is the interface of `sverchok.utils.geom`
`LinearSpline`/`CubicSpline` objects (spec section 4.1). -/
structure Spline where
  eval : ℚ → Vec3
  tangent : ℚ → ℚ → Vec3

/-- The host interpolation backends: total interpolant constructors of
`sverchok.utils.geom` (code not under `src/`), taking control points, a metric
token and the cyclic flag. -/
structure SplineLib where
  linear : List Vec3 → String → Bool → Spline
  cubic : List Vec3 → String → Bool → Spline

/-- Modelled from the spec: `LinearSpline` construction
(`sverchok.utils.geom`, absent from `src/`).  Spec section 4.1: "Requires
`len(points) >= 2`; fails with `InvalidInput` otherwise."  The interpolant
itself is supplied by the host backend `sl`. -/
def LinearSpline (sl : SplineLib) (points : List Vec3) (metric : String)
    (cyclic : Bool) : Except String Spline :=
  if 2 ≤ points.length then .ok (sl.linear points metric cyclic)
  else .error "InvalidInput"

/-- Modelled from the spec: `CubicSpline` construction
(`sverchok.utils.geom`, absent from `src/`).  Same contract as `LinearSpline`
(spec section 4.1), with the cubic interpolant backend. -/
def CubicSpline (sl : SplineLib) (points : List Vec3) (metric : String)
    (cyclic : Bool) : Except String Spline :=
  if 2 ≤ points.length then .ok (sl.cubic points metric cyclic)
  else .error "InvalidInput"

/-- `SvBevelCurveNode.build_spline` (source lines 196-203): dispatch between
the linear and cubic interpolation modes.  The source defaults `metric` to
`self.metric` when `None` is passed; call sites here always pass the metric
explicitly. -/
def build_spline (sl : SplineLib) (path : List Vec3) (mode : String)
    (cyclic : Bool) (metric : String) : Except String Spline :=
  if mode = "LIN" then LinearSpline sl path metric cyclic
  else CubicSpline sl path metric cyclic

/-- The local helper `make_unit(z)` inside `make_taper_spline` (source lines
213-217): a zero vector with coordinate `z` on the orientation axis and `1` on
the next axis (`(orient_axis_idx+1) % 3`). -/
def make_unit (cfg : Cfg) (z : ℚ) : Vec3 :=
  (vzero.set (orient_axis_idx cfg.orient_axis) z).set (orient_axis_idx cfg.orient_axis + 1) 1

/-- `SvBevelCurveNode.make_taper_spline` (source lines 205-221).  With no taper
vertices the source synthesizes the 2-point spline through
`make_unit(0)`, `make_unit(1)`; otherwise it builds a spline through the given
vertices with the taper mode and metric. -/
def make_taper_spline (sl : SplineLib) (cfg : Cfg) (vertices : List Vec3) :
    Except String Spline :=
  let metric := if cfg.taper_metric = "SAME" then cfg.metric
                else axisName cfg.orient_axis
  if vertices.length = 0 then
    LinearSpline sl [make_unit cfg 0, make_unit cfg 1] metric false
  else
    build_spline sl vertices cfg.taper_mode false metric

/-- The two dynamic shapes accepted on the `Twist` socket (source lines
223-237): a bare list of angles, or a list of `(parameter, angle)` pairs
(detected in Python by `type(data[0]) in (list, tuple) and len(data[0]) == 2`). -/
inductive TwistData where
  | angles : List ℚ → TwistData
  | pairs : List (ℚ × ℚ) → TwistData

/-- `SvBevelCurveNode.make_twist_spline` (source lines 223-237).  The empty
input synthesizes the constant-zero 2-point spline.  A nonempty bare angle
list of length `n` is given parameters `i / (n-1)`; in Python this expression
raises `ZeroDivisionError` when `n = 1`, which is embedded as the
corresponding error. -/
def make_twist_spline (sl : SplineLib) (cfg : Cfg) : TwistData → Except String Spline
  | .angles [] => LinearSpline sl [⟨0, 0, 0⟩, ⟨0, 0, 1⟩] cfg.metric cfg.is_cyclic
  | .pairs [] => LinearSpline sl [⟨0, 0, 0⟩, ⟨0, 0, 1⟩] cfg.metric cfg.is_cyclic
  | .pairs (p :: rest) =>
      build_spline sl (((p :: rest).map fun q => (⟨q.2, 0, q.1⟩ : Vec3)))
        cfg.twist_mode cfg.is_cyclic cfg.metric
  | .angles (a :: rest) =>
      let data := a :: rest
      let n := data.length
      if n = 1 then .error "ZeroDivisionError"
      else
        let ts := (List.range n).map fun (i : ℕ) => (i : ℚ) / ((n : ℚ) - 1)
        build_spline sl ((ts.zip data).map fun q => (⟨q.2, 0, q.1⟩ : Vec3))
          cfg.twist_mode cfg.is_cyclic cfg.metric

/-- The host linear-algebra interface consumed by the node (Blender's
`mathutils`, an external collaborator per spec section 2): 4x4 matrices over an
abstract carrier `M` with the operations the source invokes, plus the three
`sverchok.utils.geom` auto-rotation constructors (code not under `src/`) and
the vector length used by `get_taper_scale`. -/
structure MathLib (M : Type) where
  scaleV : ℚ → Vec3 → M
  rotV : ℚ → Vec3 → M
  mmul : M → M → M
  inverted : M → M
  autorotate_householder : Vec3 → Vec3 → M
  autorotate_track : Axis → Vec3 → Axis → M
  autorotate_diff : Vec3 → Vec3 → M
  applyM : M → Vec3 → Vec3
  vlength : Vec3 → ℚ

/-- `SvBevelCurveNode.get_taper_scale` (source lines 266-272): with
`separate_scale` the two off-axis absolute coordinates
`(|v[(idx+1)%3]|, |v[(idx-1)%3]|)`; otherwise the in-plane length of the
point with the orientation-axis coordinate zeroed, for both scales. -/
def get_taper_scale {M : Type} (ml : MathLib M) (cfg : Cfg) (v : Vec3) : ℚ × ℚ :=
  let idx := orient_axis_idx cfg.orient_axis
  if cfg.separate_scale then
    (|v.get (idx + 1)|, |v.get (idx - 1)|)
  else
    let p := v.set idx 0
    (ml.vlength p, ml.vlength p)

/-- `SvBevelCurveNode.get_twist_value` (source lines 274-276): the `x`
component of the sampled twist-spline point. -/
def get_twist_value (v : Vec3) : ℚ := v.x

/-- `SvBevelCurveNode.get_matrix` (source lines 239-264): per-station
transform `rot @ scale_matrix @ twist_matrix`, with the rotation strategy
dispatched on the `algorithm` string and `raise Exception("Unsupported
algorithm")` on any other token. -/
def get_matrix {M : Type} (ml : MathLib M) (cfg : Cfg) (tangent : Vec3)
    (twist_value scale_x scale_y : ℚ) : Except String M :=
  let axs : Vec3 × Vec3 × Vec3 :=
    if orient_axis_idx cfg.orient_axis = 0 then (vX, vY, vZ)
    else if orient_axis_idx cfg.orient_axis = 1 then (vY, vX, vZ)
    else (vZ, vX, vY)
  let scale_matrix :=
    ml.mmul (ml.mmul (ml.scaleV 1 axs.1) (ml.scaleV scale_x axs.2.1)) (ml.scaleV scale_y axs.2.2)
  let twist_matrix := ml.rotV twist_value axs.1
  if cfg.algorithm = "householder" then
    .ok (ml.mmul (ml.mmul (ml.inverted (ml.autorotate_householder axs.1 tangent)) scale_matrix) twist_matrix)
  else if cfg.algorithm = "track" then
    .ok (ml.mmul (ml.mmul (ml.autorotate_track cfg.orient_axis tangent cfg.up_axis) scale_matrix) twist_matrix)
  else if cfg.algorithm = "diff" then
    .ok (ml.mmul (ml.mmul (ml.autorotate_diff tangent axs.1) scale_matrix) twist_matrix)
  else
    .error "Unsupported algorithm"

/-- Linear interpolation between two control points.  Modelled from the spec
(section 4.1): for a 2-point spline every metric yields knot parameters `0`
and `1` after normalization, so position evaluation is linear interpolation by
the parameter itself. -/
def lerp2 (p0 p1 : Vec3) (t : ℚ) : Vec3 :=
  ⟨p0.x + t * (p1.x - p0.x), p0.y + t * (p1.y - p0.y), p0.z + t * (p1.z - p0.z)⟩

/-- The spec-side law a host interpolation backend satisfies on 2-point
inputs (spec section 4.1): the linear interpolant through two control points
evaluates by `lerp2`. -/
def TwoPointLinear (sl : SplineLib) : Prop :=
  ∀ (p0 p1 : Vec3) (metric : String) (cyclic : Bool),
    (sl.linear [p0, p1] metric cyclic).eval = lerp2 p0 p1

/-- The mesh accumulator (the host `bmesh` buffer viewed through
`pydata_from_bmesh`): vertex positions in creation order and faces as lists of
vertex indices in creation order.  The edge output of `pydata_from_bmesh` is
derived by the host from the faces and is not part of any claim. -/
structure Mesh where
  verts : List Vec3
  faces : List (List ℕ)
deriving DecidableEq, Repr

/-- `np.linspace(0.0, 1.0, num=n)`: `n` evenly spaced samples over `[0,1]`
including both endpoints (`[0]` for `n = 1`, empty for `n = 0`). -/
def linspace (n : ℕ) : List ℚ :=
  if n = 0 then []
  else if n = 1 then [0]
  else (List.range n).map fun (i : ℕ) => (i : ℚ) / ((n : ℚ) - 1)

/-- Python `zip` of four equal-length lists (truncating at the shortest). -/
def zip4 {α β γ δ : Type} : List α → List β → List γ → List δ → List (α × β × γ × δ)
  | a :: as, b :: bs, c :: cs, d :: ds => (a, b, c, d) :: zip4 as bs cs ds
  | _, _, _, _ => []

/-- One sampled station of the sweep: spline position, spline tangent, taper
scale pair, twist angle (in the order the source zips them, lines 310-313). -/
abbrev Station := Vec3 × Vec3 × (ℚ × ℚ) × ℚ

/-- The quad face the stitching loop emits for profile edge `e = (i, j)`
between a prior ring `pl` and the current ring `cl` (source lines 318-324):
`mesh.faces.new([v4, v3, v2, v1])` with `v4 = prev[j]`, `v3 = cur[j]`,
`v2 = cur[i]`, `v1 = prev[i]`. -/
def quadOf (pl cl : List ℕ) (e : ℕ × ℕ) : List ℕ :=
  [pl.getD e.2 0, cl.getD e.2 0, cl.getD e.1 0, pl.getD e.1 0]

/-- The closing quads of a cyclic sweep (source lines 345-351):
`[first[i], prev[i], prev[j], first[j]]` per profile edge `(i, j)`. -/
def closingQuads (bedges : List (ℕ × ℕ)) (fl pl : List ℕ) : List (List ℕ) :=
  bedges.map fun e => [fl.getD e.1 0, pl.getD e.1 0, pl.getD e.2 0, fl.getD e.2 0]

/-- Indices of ring `r` when each ring holds `k` fresh vertices starting at
`base`: `[base + r*k, …, base + r*k + k - 1]`. -/
def ringL (base k r : ℕ) : List ℕ :=
  (List.range k).map fun i => base + r * k + i

/-- The rings of `s` consecutive stations. -/
def ringsL (base k s : ℕ) : List (List ℕ) :=
  (List.range s).map (ringL base k)

/-- All quads stitched between consecutive members of a list of rings. -/
def stitchChain (bedges : List (ℕ × ℕ)) : List (List ℕ) → List (List ℕ)
  | [] => []
  | [_] => []
  | a :: b :: rest => bedges.map (quadOf a b) ++ stitchChain bedges (b :: rest)

/-- Prepend an optional element. -/
def optCons {α : Type} : Option α → List α → List α
  | none, l => l
  | some a, l => a :: l

/-- One cap face built by indexing a ring with the (possibly reversed) profile
face: Python `[ring[i] for i in face]`.  Indexing into an absent ring
(`first_level_vertices is None`) raises `TypeError` as soon as the face is
nonempty. -/
def capFace (ring : Option (List ℕ)) (face : List ℕ) : Except String (List ℕ) :=
  match ring with
  | some fl => .ok (face.map fun i => fl.getD i 0)
  | none => if face.isEmpty then .ok [] else .error "TypeError"

/-- The `cap_start` block (source lines 331-337): with no explicit profile
faces a single n-gon from the reversed first ring (`reversed(None)` raises
`TypeError` when no station was generated); otherwise one cap per profile
face, indexed in reversed face order. -/
def capStartF (m : Mesh) (fst : Option (List ℕ)) (bfaces : List (List ℕ)) :
    Except String Mesh :=
  if bfaces.isEmpty then
    match fst with
    | none => .error "TypeError"
    | some fl => .ok ⟨m.verts, m.faces ++ [fl.reverse]⟩
  else do
    let caps ← bfaces.mapM fun face => capFace fst face.reverse
    .ok ⟨m.verts, m.faces ++ caps⟩

/-- The `cap_end` block (source lines 338-344): skipped when no station was
generated (`prev_level_vertices is not None` guard); with no explicit profile
faces a single n-gon from the last ring in ring order, else one cap per
profile face in face order. -/
def capEndF (m : Mesh) (prv : Option (List ℕ)) (bfaces : List (List ℕ)) :
    Except String Mesh :=
  match prv with
  | none => .ok m
  | some pl =>
    if bfaces.isEmpty then .ok ⟨m.verts, m.faces ++ [pl]⟩
    else .ok ⟨m.verts, m.faces ++ bfaces.map fun face => face.map fun i => pl.getD i 0⟩

/-- The tail of `make_bevel` after the station loop (source lines 330-351):
caps for the non-cyclic case, closing stitch for the cyclic case (indexing
absent rings raises `TypeError`; with no profile edges the closing loop is a
no-op). -/
def finishMesh (cfg : Cfg) (bedges : List (ℕ × ℕ)) (bfaces : List (List ℕ))
    (m : Mesh) (fst prv : Option (List ℕ)) : Except String Mesh :=
  if cfg.is_cyclic = false then
    match (if cfg.cap_start then capStartF m fst bfaces else .ok m) with
    | .error e => .error e
    | .ok m1 =>
      match (if cfg.cap_end then capEndF m1 prv bfaces else .ok m1) with
      | .error e => .error e
      | .ok m2 => .ok m2
  else
    if bedges.isEmpty then .ok m
    else
      match fst, prv with
      | some fl, some pl => .ok ⟨m.verts, m.faces ++ closingQuads bedges fl pl⟩
      | _, _ => .error "TypeError"

/-- Modelled from the spec: `polygons_to_edges`
(`sverchok.utils.sv_mesh_utils`, absent from `src/`) — the edges of each
polygon as consecutive index pairs including the closing pair.  (The source
passes `unique_edges=True`; deduplication is irrelevant to every claim, all of
which supply explicit profile edges or no profile faces, so this branch of
`make_bevel` is never taken there.) -/
def polygons_to_edges (faces : List (List ℕ)) : List (ℕ × ℕ) :=
  faces.flatMap fun f =>
    match f with
    | [] => []
    | a :: rest => f.zip (rest ++ [a])

/-- The faces added at one station (source lines 318-324): none before the
first ring exists, otherwise one quad per profile edge stitching the previous
ring to the current one. -/
def stitchStep (bedges : List (ℕ × ℕ)) (prv : Option (List ℕ)) (lvl : List ℕ) :
    List (List ℕ) :=
  match prv with
  | none => []
  | some pl => bedges.map (quadOf pl lvl)

/-- `first_level_vertices` update (source lines 326-327): set on the first
station, kept afterwards. -/
def keepFst (fst : Option (List ℕ)) (lvl : List ℕ) : Option (List ℕ) :=
  match fst with
  | none => some lvl
  | some l => some l

/-- The station loop of `make_bevel` (source lines 308-328): per station,
build the frame via `get_matrix` (exceptions propagate), append one
transformed profile ring of fresh vertices, and stitch the previous ring to
it with one quad per profile edge; track the first and previous rings. -/
def sweepLoop {M : Type} (ml : MathLib M) (cfg : Cfg) (bverts : List Vec3)
    (bedges : List (ℕ × ℕ)) :
    List Station → Mesh → Option (List ℕ) → Option (List ℕ) →
    Except String (Mesh × Option (List ℕ) × Option (List ℕ))
  | [], m, fst, prv => .ok (m, fst, prv)
  | (pos, tan, scl, tw) :: rest, m, fst, prv =>
    match get_matrix ml cfg tan tw scl.1 scl.2 with
    | .error e => .error e
    | .ok mat =>
      let lvl := (List.range bverts.length).map fun i => m.verts.length + i
      sweepLoop ml cfg bverts bedges rest
        ⟨m.verts ++ bverts.map (fun bv => vadd (ml.applyM mat bv) pos),
         m.faces ++ stitchStep bedges prv lvl⟩
        (keepFst fst lvl) (some lvl)

/-- The station sampling of `make_bevel` (source lines 281-313): `steps`
uniform parameter samples over `[0,1]` (dropping the duplicate final sample
when cyclic), each optionally reversed independently for curve/taper/twist by
the flip flags, evaluated into (position, tangent, taper scale pair, twist
angle) stations. -/
def bevelStations {M : Type} (ml : MathLib M) (cfg : Cfg)
    (spline taper twist : Spline) (steps : ℕ) : List Station :=
  let t_values := if cfg.is_cyclic then (linspace steps).dropLast else linspace steps
  let t_for_curve := if cfg.flip_curve then t_values.map (fun t => 1 - t) else t_values
  let t_for_taper := if cfg.flip_taper then t_values.map (fun t => 1 - t) else t_values
  let t_for_twist := if cfg.flip_twist then t_values.map (fun t => 1 - t) else t_values
  let spline_vertices := t_for_curve.map spline.eval
  let spline_tangents := t_for_curve.map fun t => spline.tangent t cfg.tangent_precision
  let taper_values := (t_for_taper.map taper.eval).map (get_taper_scale ml cfg)
  let twist_values := (t_for_twist.map twist.eval).map get_twist_value
  zip4 spline_vertices spline_tangents taper_values twist_values

/-- `SvBevelCurveNode.make_bevel` (source lines 278-358): build the path
spline (exceptions propagate), derive profile edges from profile faces when
only faces are given, sample the stations, run the station loop, then cap or
close. -/
def make_bevel {M : Type} (ml : MathLib M) (sl : SplineLib) (cfg : Cfg)
    (curve bevel_verts : List Vec3) (bevel_edges : List (ℕ × ℕ))
    (bevel_faces : List (List ℕ)) (taper twist : Spline) (steps : ℕ) :
    Except String Mesh :=
  match build_spline sl curve cfg.bevel_mode cfg.is_cyclic cfg.metric with
  | .error e => .error e
  | .ok spline =>
    let bedges := if bevel_edges.isEmpty ∧ ¬ bevel_faces.isEmpty
                  then polygons_to_edges bevel_faces else bevel_edges
    match sweepLoop ml cfg bevel_verts bedges
        (bevelStations ml cfg spline taper twist steps) ⟨[], []⟩ none none with
    | .error e => .error e
    | .ok (m1, fst, prv) => finishMesh cfg bedges bevel_faces m1 fst prv

/-- The profile edges of a closed ring of `k` vertices:
`(i, (i+1) % k)` for `i < k`. -/
def ringEdges (k : ℕ) : List (ℕ × ℕ) :=
  (List.range k).map fun i => (i, (i + 1) % k)

/-- Accumulator state of `split_by_vertices` (source lines 74-77): the output
vertex list, the parallel `old_v_indexes` list, and the `old_new_verts`
dictionary (modelled as an association list, keys inserted at most once). -/
structure SplitSt (α : Type) where
  outVerts : List α
  oldV : List ℕ
  oldNew : List (ℕ × ℕ)
deriving Repr

/-- Modelled from the spec: `fixed_iter` (`sverchok.data_structure`, absent
from `src/` and not described by the spec) — here padding with the last
element (or `false`) to the requested length.  Every theorem below supplies a
mask of matching length (or an empty one), so this branch is never relevant
to a settled claim. -/
def fixedIter (l : List Bool) (n : ℕ) : List Bool :=
  (List.range n).map fun i => l.getD i ((l.getLast?).getD false)

/-- The per-index body of the face loop of `split_by_vertices` (source lines
80-92): a selected vertex is duplicated for each reference; an unselected
vertex is copied once and reused through `old_new_verts`.  Returns the new
state and the index appended to the rebuilt face. -/
def procIdx {α : Type} [Inhabited α] (verts : List α) (sel : List Bool)
    (st : SplitSt α) (i : ℕ) : SplitSt α × ℕ :=
  if sel.getD i false then
    (⟨st.outVerts ++ [verts.getD i default], st.oldV ++ [i], st.oldNew⟩,
     st.outVerts.length)
  else
    match st.oldNew.lookup i with
    | some k => (st, k)
    | none =>
      (⟨st.outVerts ++ [verts.getD i default], st.oldV ++ [i],
        st.oldNew ++ [(i, st.outVerts.length)]⟩,
       st.outVerts.length)

/-- The inner loop of `split_by_vertices` over one face (source lines 78-93). -/
def procFace {α : Type} [Inhabited α] (verts : List α) (sel : List Bool) :
    SplitSt α → List ℕ → SplitSt α × List ℕ
  | st, [] => (st, [])
  | st, i :: is =>
    let p1 := procIdx verts sel st i
    let p2 := procFace verts sel p1.1 is
    (p2.1, p1.2 :: p2.2)

/-- The outer loop of `split_by_vertices` over all faces. -/
def procFaces {α : Type} [Inhabited α] (verts : List α) (sel : List Bool) :
    SplitSt α → List (List ℕ) → SplitSt α × List (List ℕ)
  | st, [] => (st, [])
  | st, f :: fs =>
    let p1 := procFace verts sel st f
    let p2 := procFaces verts sel p1.1 fs
    (p2.1, p1.2 :: p2.2)

/-- `split_by_vertices` (source lines 63-106), restricted to the outputs the
claim concerns: `(out_verts, out_faces, old_v_indexes, old_f_indexes)`.  The
mask normalization of lines 69-72 is embedded; the edge outputs (lines
95-104) are computed afterwards from these values via `polygons_to_edges_np`
(a helper absent from `src/`) and do not feed back into them. -/
def split_by_vertices {α : Type} [Inhabited α] (verts : List α)
    (faces : List (List ℕ)) (selected_verts : List Bool) :
    List α × List (List ℕ) × List ℕ × List ℕ :=
  let sel := if selected_verts.isEmpty then List.replicate verts.length true
             else if selected_verts.length ≠ verts.length then
               fixedIter selected_verts verts.length
             else selected_verts
  let p := procFaces verts sel ⟨[], [], []⟩ faces
  (p.1.outVerts, p.2, p.1.oldV, List.range faces.length)

/-- A vector field object as received on the `Field` socket of
`SvVectorFieldEvaluateNode` (the field classes live outside `src/`): pointwise
evaluation and vectorized grid evaluation over the three coordinate arrays. -/
structure VField where
  evaluate : ℚ × ℚ × ℚ → ℚ × ℚ × ℚ
  evaluate_grid : List ℚ → List ℚ → List ℚ → List ℚ × List ℚ × List ℚ

/-- A value placed on the output socket for one batch: either a Python list
of triples or a NumPy array of the same triples (`np.dstack` of the three
result arrays). -/
inductive PyVal where
  | pyList : List (ℚ × ℚ × ℚ) → PyVal
  | ndarray : List (ℚ × ℚ × ℚ) → PyVal
deriving DecidableEq, Repr

/-- Python `zip` of three equal-length lists. -/
def zip3 {α β γ : Type} : List α → List β → List γ → List (α × β × γ)
  | a :: as, b :: bs, c :: cs => (a, b, c) :: zip3 as bs cs
  | _, _, _ => []

/-- The per-batch body of `SvVectorFieldEvaluateNode.process` (source lines
48-61): empty input gives an empty Python list; a single vertex is evaluated
pointwise into a one-element list of a tuple; two or more vertices go through
the vectorized grid path, whose result is returned as a NumPy array when
`output_numpy` is set and as `new_vectors[0].tolist()` otherwise. -/
def processBatch (output_numpy : Bool) (field : VField)
    (vertices : List (ℚ × ℚ × ℚ)) : PyVal :=
  if vertices.length = 0 then .pyList []
  else if vertices.length = 1 then
    .pyList [field.evaluate (vertices.getD 0 default)]
  else
    let xs := vertices.map fun v => v.1
    let ys := vertices.map fun v => v.2.1
    let zs := vertices.map fun v => v.2.2
    let r := field.evaluate_grid xs ys zs
    let new_vectors := zip3 r.1 r.2.1 r.2.2
    if output_numpy then .ndarray new_vectors else .pyList new_vectors

/-- A trivial host matrix backend (carrier `Unit`), used to instantiate
witnesses: matrix application is the identity on positions. -/
def mlTriv : MathLib Unit where
  scaleV := fun _ _ => ()
  rotV := fun _ _ => ()
  mmul := fun _ _ => ()
  inverted := fun _ => ()
  autorotate_householder := fun _ _ => ()
  autorotate_track := fun _ _ _ => ()
  autorotate_diff := fun _ _ => ()
  applyM := fun _ v => v
  vlength := fun _ => 0

/-- A concrete host interpolation backend for witnesses: 2-point linear
interpolation (and the same interpolant for the cubic constructor, which no
witness relies on). -/
def slTriv : SplineLib where
  linear := fun ps _ _ =>
    { eval := fun t => lerp2 (ps.getD 0 default) (ps.getD 1 default) t
      tangent := fun _ _ => vzero }
  cubic := fun ps _ _ =>
    { eval := fun t => lerp2 (ps.getD 0 default) (ps.getD 1 default) t
      tangent := fun _ _ => vzero }

/-- A constant spline value for witnesses. -/
def spTriv : Spline where
  eval := fun _ => vzero
  tangent := fun _ _ => vzero

/-- A baseline configuration for witnesses (the node's property defaults:
householder / Z axis / cubic bevel and taper, linear twist, Euclidean metric,
axis taper metric, all flags off). -/
def cfgW : Cfg where
  algorithm := "householder"
  orient_axis := .Z
  up_axis := .X
  bevel_mode := "SPL"
  taper_mode := "SPL"
  twist_mode := "LIN"
  metric := "DISTANCE"
  taper_metric := "AXIS"
  is_cyclic := false
  flip_curve := false
  flip_taper := false
  flip_twist := false
  cap_start := false
  cap_end := false
  separate_scale := false
  tangent_precision := 1 / 1000

/-- C8: for every algorithm token outside `{householder, track, diff}`,
`get_matrix` fails with the fatal configuration error (`raise Exception
("Unsupported algorithm")`, the `InvalidConfig` of the spec taxonomy) and
yields no partial result; for every token inside the set it returns a
transform without error. -/
theorem c8_get_matrix_dispatch {M : Type} (ml : MathLib M) (cfg : Cfg)
    (tangent : Vec3) (tw sx sy : ℚ) :
    (cfg.algorithm = "householder" ∨ cfg.algorithm = "track" ∨ cfg.algorithm = "diff" →
      ∃ mres, get_matrix ml cfg tangent tw sx sy = .ok mres) ∧
    (cfg.algorithm ∉ (["householder", "track", "diff"] : List String) →
      get_matrix ml cfg tangent tw sx sy = .error "Unsupported algorithm") := by
  constructor
  · rintro (h | h | h) <;> simp [get_matrix, h]
  · intro h
    simp only [List.mem_cons, List.not_mem_nil, or_false, not_or] at h
    obtain ⟨h1, h2, h3⟩ := h
    simp [get_matrix, h1, h2, h3]

/-- Witness for C8 at concrete inputs: the default `householder` token
produces a transform, the unknown token `frenet` produces the error. -/
theorem c8_get_matrix_dispatch_w :
    (∃ mres, get_matrix mlTriv cfgW vzero 0 1 1 = .ok mres) ∧
    get_matrix mlTriv { cfgW with algorithm := "frenet" } vzero 0 1 1 =
      .error "Unsupported algorithm" :=
  ⟨(c8_get_matrix_dispatch mlTriv cfgW vzero 0 1 1).1 (Or.inl rfl),
   (c8_get_matrix_dispatch mlTriv { cfgW with algorithm := "frenet" } vzero 0 1 1).2
     (by decide)⟩

/-- C1 (failing input): with `separate_scale` enabled and no taper control
points, sampling the synthesized default taper spline yields
`(scale_x, scale_y) = (1, 0)` at every parameter `t` in `[0,1]` and every
orientation axis — not the claimed constant `(1, 1)`.  The default point
`make_unit` sets only the first off-axis coordinate to `1`, so the second
off-axis coordinate read by the `separate_scale` branch of `get_taper_scale`
is `0`, contradicting the source's own comment "use constant scale of 1.0". -/
theorem c1_default_taper_separate_scale {M : Type} (ml : MathLib M)
    (sl : SplineLib) (cfg : Cfg) (t : ℚ) (hsl : TwoPointLinear sl)
    (hsep : cfg.separate_scale = true) (ht0 : 0 ≤ t) (ht1 : t ≤ 1) :
    ∃ sp, make_taper_spline sl cfg [] = .ok sp ∧
      get_taper_scale ml cfg (sp.eval t) = (1, 0) := by
  refine ⟨sl.linear [make_unit cfg 0, make_unit cfg 1]
      (if cfg.taper_metric = "SAME" then cfg.metric else axisName cfg.orient_axis)
      false, ?_, ?_⟩
  · simp [make_taper_spline, LinearSpline]
  · rw [hsl]
    cases hax : cfg.orient_axis <;>
      simp [get_taper_scale, hax, hsep, make_unit, lerp2, vzero, Vec3.set, Vec3.get,
        orient_axis_idx, show ((0 : Fin 3) + 1) = 1 from rfl,
        show ((1 : Fin 3) + 1) = 2 from rfl, show ((2 : Fin 3) + 1) = 0 from rfl,
        show ((0 : Fin 3) - 1) = 2 from rfl, show ((1 : Fin 3) - 1) = 0 from rfl,
        show ((2 : Fin 3) - 1) = 1 from rfl]

/-- Witness for C1 at a concrete input (`orient_axis = Z`,
`separate_scale = true`, `t = 1/2`). -/
theorem c1_default_taper_separate_scale_w :
    ∃ sp, make_taper_spline slTriv { cfgW with separate_scale := true } [] = .ok sp ∧
      get_taper_scale mlTriv { cfgW with separate_scale := true } (sp.eval (1/2)) = (1, 0) :=
  c1_default_taper_separate_scale mlTriv slTriv { cfgW with separate_scale := true }
    (1/2) (fun _ _ _ _ => rfl) rfl (by norm_num) (by norm_num)

/-- C10: in `SvVectorFieldEvaluateNode.process`, a one-vertex batch is
evaluated pointwise into a one-element Python list of a tuple and an empty
batch yields an empty Python list, both regardless of `output_numpy`; the
flag only affects batches of two or more vertices. -/
theorem c10_vector_field_eval_batches (field : VField) :
    (∀ (onp : Bool) (v : ℚ × ℚ × ℚ),
      processBatch onp field [v] = .pyList [field.evaluate v]) ∧
    (∀ onp : Bool, processBatch onp field [] = .pyList []) ∧
    (∀ (onp onp' : Bool) (vs : List (ℚ × ℚ × ℚ)), vs.length < 2 →
      processBatch onp field vs = processBatch onp' field vs) := by
  refine ⟨fun onp v => rfl, fun onp => rfl, fun onp onp' vs h => ?_⟩
  match vs with
  | [] => rfl
  | [v] => rfl
  | a :: b :: rest => simp at h; omega

/-- A trivial vector field (pointwise identity) for the C10 witness. -/
def vfTriv : VField := ⟨fun v => v, fun xs ys zs => (xs, ys, zs)⟩

/-- Witness for C10 at concrete inputs. -/
theorem c10_vector_field_eval_batches_w :
    processBatch true vfTriv [(1, 2, 3)] = .pyList [vfTriv.evaluate (1, 2, 3)] ∧
    processBatch true vfTriv [(1, 2, 3)] = processBatch false vfTriv [(1, 2, 3)] :=
  ⟨(c10_vector_field_eval_batches vfTriv).1 true (1, 2, 3),
   (c10_vector_field_eval_batches vfTriv).2.2 true false [(1, 2, 3)] (by norm_num)⟩

/-- Zipping a list with its index-mapped range picks out indexed elements. -/
theorem zip_range_map {α β : Type} (l : List α) (f : ℕ → β) (d : α) :
    ((List.range l.length).map f).zip l =
      (List.range l.length).map fun i => (f i, l.getD i d) := by
  apply List.ext_getElem
  · simp
  · intro i h1 h2
    simp only [List.getElem_zip, List.getElem_map, List.getElem_range]
    simp at h2
    rw [List.getD_eq_getElem l d h2]

/-- A nonempty pair list takes the explicit-pairs branch of
`make_twist_spline`. -/
theorem make_twist_spline_pairs_cons (sl : SplineLib) (cfg : Cfg)
    (P : List (ℚ × ℚ)) (hP : P ≠ []) :
    make_twist_spline sl cfg (.pairs P) =
      build_spline sl (P.map fun q => (⟨q.2, 0, q.1⟩ : Vec3))
        cfg.twist_mode cfg.is_cyclic cfg.metric := by
  match P, hP with
  | p :: rest, _ => rfl

/-- C3 (amended): for a bare angle list of length `n ≥ 2`,
`make_twist_spline` succeeds and builds the spline through the points
`(angle_i, 0, i/(n-1))` — parameters evenly spaced over `[0,1]` — which is
exactly the spline built from the corresponding explicit `(parameter, angle)`
pair input.  (The claim's `n = 1` case instead raises `ZeroDivisionError`;
see the counterexample.) -/
theorem c3_twist_angles_normalize (sl : SplineLib) (cfg : Cfg) (l : List ℚ)
    (hl : 2 ≤ l.length) :
    make_twist_spline sl cfg (.angles l) =
      build_spline sl ((List.range l.length).map fun (i : ℕ) =>
          (⟨l.getD i 0, 0, (i : ℚ) / ((l.length : ℚ) - 1)⟩ : Vec3))
        cfg.twist_mode cfg.is_cyclic cfg.metric ∧
    make_twist_spline sl cfg (.angles l) =
      make_twist_spline sl cfg (.pairs ((List.range l.length).map fun (i : ℕ) =>
          ((i : ℚ) / ((l.length : ℚ) - 1), l.getD i 0))) := by
  have hfst : make_twist_spline sl cfg (.angles l) =
      build_spline sl ((List.range l.length).map fun (i : ℕ) =>
          (⟨l.getD i 0, 0, (i : ℚ) / ((l.length : ℚ) - 1)⟩ : Vec3))
        cfg.twist_mode cfg.is_cyclic cfg.metric := by
    match l, hl with
    | a :: b :: rest, _ =>
      simp only [make_twist_spline]
      rw [if_neg (by simp)]
      rw [zip_range_map (a :: b :: rest) _ 0, List.map_map]
      rfl
  refine ⟨hfst, ?_⟩
  have hne : ((List.range l.length).map fun (i : ℕ) =>
      ((i : ℚ) / ((l.length : ℚ) - 1), l.getD i 0)) ≠ [] := by
    have hl0 : l.length ≠ 0 := by omega
    simpa using hl0
  rw [make_twist_spline_pairs_cons sl cfg _ hne]
  rw [List.map_map, hfst]
  rfl

/-- Counterexample for C3 as stated: a bare twist sequence of a single angle
(`n = 1`, admitted by the claim's `n ≥ 1`) does not succeed — the parameter
expression `i / (n-1)` raises `ZeroDivisionError`. -/
theorem c3_twist_single_angle_cex :
    make_twist_spline slTriv cfgW (.angles [1/2]) = .error "ZeroDivisionError" := rfl

/-- Witness for C3 (amended) at the concrete angle list `[0, 1]`. -/
theorem c3_twist_angles_normalize_w :
    make_twist_spline slTriv cfgW (.angles [0, 1]) =
      make_twist_spline slTriv cfgW
        (.pairs ((List.range ([0, 1] : List ℚ).length).map fun (i : ℕ) =>
          ((i : ℚ) / ((([0, 1] : List ℚ).length : ℚ) - 1), ([0, 1] : List ℚ).getD i 0))) :=
  (c3_twist_angles_normalize slTriv cfgW [0, 1] (by norm_num)).2

/-- A successful association-list lookup is a membership. -/
theorem lookup_mem {d : List (ℕ × ℕ)} {i k : ℕ} (h : d.lookup i = some k) :
    (i, k) ∈ d := by
  induction d with
  | nil => simp [List.lookup] at h
  | cons hd t ih =>
    obtain ⟨x, y⟩ := hd
    by_cases hix : i = x
    · subst hix
      simp [List.lookup] at h
      simp [h]
    · have hb : (i == x) = false := by simp [hix]
      simp [List.lookup, hb] at h
      exact List.mem_cons_of_mem _ (ih h)

/-- `getD` through an appended singleton, below the old length. -/
theorem getD_snoc_lt {α : Type} (l : List α) (x d : α) (p : ℕ) (h : p < l.length) :
    (l ++ [x]).getD p d = l.getD p d := by
  rw [List.getD_eq_getElem?_getD, List.getD_eq_getElem?_getD,
    List.getElem?_append_left h]

/-- `getD` through an appended singleton, at the old length. -/
theorem getD_snoc_eq {α : Type} (l : List α) (x d : α) :
    (l ++ [x]).getD l.length d = x := by
  rw [List.getD_eq_getElem?_getD, List.getElem?_append_right (le_refl _)]
  simp

/-- The invariant of the `split_by_vertices` accumulator: `out_verts` and
`old_v_indexes` stay parallel, every recorded source index is valid and names
the vertex that was copied, and every index stored in the `old_new_verts`
dictionary points into `out_verts`. -/
def StOK {α : Type} [Inhabited α] (verts : List α) (st : SplitSt α) : Prop :=
  st.outVerts.length = st.oldV.length ∧
  (∀ p : ℕ, p < st.oldV.length →
    st.oldV.getD p 0 < verts.length ∧
    st.outVerts.getD p default = verts.getD (st.oldV.getD p 0) default) ∧
  (∀ pr ∈ st.oldNew, pr.2 < st.outVerts.length)

/-- One step of the face loop preserves the invariant, returns an index into
the (grown) output vertex list, and only appends to it. -/
theorem procIdx_ok {α : Type} [Inhabited α] (verts : List α) (sel : List Bool)
    (st : SplitSt α) (i : ℕ) (hi : i < verts.length) (hst : StOK verts st) :
    StOK verts (procIdx verts sel st i).1 ∧
    (procIdx verts sel st i).2 < (procIdx verts sel st i).1.outVerts.length ∧
    st.outVerts.length ≤ (procIdx verts sel st i).1.outVerts.length := by
  obtain ⟨hlen, hcopy, hdict⟩ := hst
  have hgrow : ∀ (st' : SplitSt α), st'.outVerts = st.outVerts ++ [verts.getD i default] →
      st'.oldV = st.oldV ++ [i] →
      (st'.outVerts.length = st'.oldV.length ∧
       (∀ p : ℕ, p < st'.oldV.length →
         st'.oldV.getD p 0 < verts.length ∧
         st'.outVerts.getD p default = verts.getD (st'.oldV.getD p 0) default)) := by
    intro st' hv ho
    constructor
    · simp [hv, ho, hlen]
    · intro p hp
      rw [ho, List.length_append, List.length_singleton] at hp
      rcases Nat.lt_or_ge p st.oldV.length with hplt | hpge
      · rw [hv, ho, getD_snoc_lt _ _ _ _ hplt,
          getD_snoc_lt _ _ _ _ (by omega : p < st.outVerts.length)]
        exact hcopy p hplt
      · have hpeq : p = st.oldV.length := by omega
        subst hpeq
        rw [hv, ho, getD_snoc_eq, ← hlen, getD_snoc_eq]
        exact ⟨hi, rfl⟩
  unfold procIdx
  by_cases hs : sel.getD i false
  · simp only [hs, if_true]
    obtain ⟨g1, g2⟩ := hgrow ⟨st.outVerts ++ [verts.getD i default], st.oldV ++ [i], st.oldNew⟩ rfl rfl
    refine ⟨⟨g1, g2, ?_⟩, by simp, by simp⟩
    intro pr hpr
    have := hdict pr hpr
    simp
    omega
  · simp only [hs, if_false]
    cases hlk : st.oldNew.lookup i with
    | some k =>
      refine ⟨⟨hlen, hcopy, hdict⟩, ?_, le_refl _⟩
      exact hdict (i, k) (lookup_mem hlk)
    | none =>
      obtain ⟨g1, g2⟩ := hgrow
        ⟨st.outVerts ++ [verts.getD i default], st.oldV ++ [i],
         st.oldNew ++ [(i, st.outVerts.length)]⟩ rfl rfl
      refine ⟨⟨g1, g2, ?_⟩, by simp, by simp⟩
      intro pr hpr
      have hpr' : pr ∈ st.oldNew ++ [(i, st.outVerts.length)] := hpr
      simp only [List.mem_append, List.mem_singleton] at hpr'
      rcases hpr' with hpr' | rfl
      · have := hdict pr hpr'
        simp
        omega
      · simp

/-- The face loop preserves the invariant, rebuilds a face of the same
length whose entries all point into the grown output vertex list. -/
theorem procFace_ok {α : Type} [Inhabited α] (verts : List α) (sel : List Bool) :
    ∀ (face : List ℕ) (st : SplitSt α),
      (∀ i ∈ face, i < verts.length) → StOK verts st →
      StOK verts (procFace verts sel st face).1 ∧
      (procFace verts sel st face).2.length = face.length ∧
      (∀ k ∈ (procFace verts sel st face).2,
        k < (procFace verts sel st face).1.outVerts.length) ∧
      st.outVerts.length ≤ (procFace verts sel st face).1.outVerts.length := by
  intro face
  induction face with
  | nil =>
    intro st hf hst
    exact ⟨hst, rfl, by simp [procFace], le_refl _⟩
  | cons i is ih =>
    intro st hf hst
    have hi : i < verts.length := hf i (by simp)
    obtain ⟨h1, h2, h3⟩ := procIdx_ok verts sel st i hi hst
    obtain ⟨g1, g2, g3, g4⟩ :=
      ih (procIdx verts sel st i).1 (fun j hj => hf j (by simp [hj])) h1
    have hfc : procFace verts sel st (i :: is) =
        ((procFace verts sel (procIdx verts sel st i).1 is).1,
         (procIdx verts sel st i).2 ::
           (procFace verts sel (procIdx verts sel st i).1 is).2) := rfl
    rw [hfc]
    refine ⟨g1, by simp [g2], ?_, le_trans h3 g4⟩
    intro k hk
    simp only [List.mem_cons] at hk
    rcases hk with rfl | hk
    · exact lt_of_lt_of_le h2 g4
    · exact g3 k hk

/-- The outer loop over all faces preserves the invariant and produces one
rebuilt face per input face, of the same length, with all entries pointing
into the final output vertex list. -/
theorem procFaces_ok {α : Type} [Inhabited α] (verts : List α) (sel : List Bool) :
    ∀ (faces : List (List ℕ)) (st : SplitSt α),
      (∀ f ∈ faces, ∀ i ∈ f, i < verts.length) → StOK verts st →
      StOK verts (procFaces verts sel st faces).1 ∧
      (procFaces verts sel st faces).2.length = faces.length ∧
      (∀ p : ℕ, ((procFaces verts sel st faces).2.getD p []).length =
        (faces.getD p []).length) ∧
      (∀ f ∈ (procFaces verts sel st faces).2, ∀ k ∈ f,
        k < (procFaces verts sel st faces).1.outVerts.length) ∧
      st.outVerts.length ≤ (procFaces verts sel st faces).1.outVerts.length := by
  intro faces
  induction faces with
  | nil =>
    intro st hf hst
    exact ⟨hst, rfl, fun p => rfl, by simp [procFaces], le_refl _⟩
  | cons f fs ih =>
    intro st hf hst
    obtain ⟨h1, h2, h3, h4⟩ := procFace_ok verts sel f st (hf f (by simp)) hst
    obtain ⟨g1, g2, g3, g4, g5⟩ :=
      ih (procFace verts sel st f).1 (fun f' hf' => hf f' (by simp [hf'])) h1
    have hfc : procFaces verts sel st (f :: fs) =
        ((procFaces verts sel (procFace verts sel st f).1 fs).1,
         (procFace verts sel st f).2 ::
           (procFaces verts sel (procFace verts sel st f).1 fs).2) := rfl
    rw [hfc]
    refine ⟨g1, by simp [g2], ?_, ?_, le_trans h4 g5⟩
    · intro p
      cases p with
      | zero => simpa using h2
      | succ q => simpa using g3 q
    · intro f' hf' k hk
      simp only [List.mem_cons] at hf'
      rcases hf' with rfl | hf'
      · exact lt_of_lt_of_le (h3 k hk) g5
      · exact g4 f' hf' k hk

/-- C9: for every input to `split_by_vertices` whose faces reference only
valid vertex indices, every index in the returned faces is a valid index into
the returned vertex list, the returned faces correspond one-to-one (and
length-to-length) with the input faces, and `old_v_indexes` maps each output
vertex position to the input vertex it was copied from. -/
theorem c9_split_by_vertices_safety {α : Type} [Inhabited α] (verts : List α)
    (faces : List (List ℕ)) (selected : List Bool)
    (hf : ∀ f ∈ faces, ∀ i ∈ f, i < verts.length) :
    (∀ f ∈ (split_by_vertices verts faces selected).2.1, ∀ j ∈ f,
      j < (split_by_vertices verts faces selected).1.length) ∧
    (split_by_vertices verts faces selected).2.1.length = faces.length ∧
    (∀ p : ℕ, ((split_by_vertices verts faces selected).2.1.getD p []).length =
      (faces.getD p []).length) ∧
    (split_by_vertices verts faces selected).1.length =
      (split_by_vertices verts faces selected).2.2.1.length ∧
    (∀ p : ℕ, p < (split_by_vertices verts faces selected).1.length →
      (split_by_vertices verts faces selected).2.2.1.getD p 0 < verts.length ∧
      (split_by_vertices verts faces selected).1.getD p default =
        verts.getD ((split_by_vertices verts faces selected).2.2.1.getD p 0) default) := by
  have hinit : StOK verts (⟨[], [], []⟩ : SplitSt α) := by
    refine ⟨rfl, ?_, ?_⟩ <;> intro p hp <;> simp at hp
  obtain ⟨⟨i1, i2, _⟩, h2, h3, h4, _⟩ := procFaces_ok verts
    (if selected.isEmpty then List.replicate verts.length true
     else if selected.length ≠ verts.length then fixedIter selected verts.length
     else selected) faces (⟨[], [], []⟩ : SplitSt α) hf hinit
  exact ⟨h4, h2, h3, i1, fun p hp => i2 p (by rw [← i1]; exact hp)⟩

/-- Witness for C9 at the concrete input `verts = [10, 20, 30]`,
`faces = [[0, 1, 2], [2, 1]]`, `mask = [true, false, true]`. -/
theorem c9_split_by_vertices_safety_w :
    (∀ f ∈ (split_by_vertices [10, 20, 30] [[0, 1, 2], [2, 1]] [true, false, true]).2.1,
      ∀ j ∈ f,
      j < (split_by_vertices [10, 20, 30] [[0, 1, 2], [2, 1]] [true, false, true]).1.length) ∧
    (split_by_vertices [10, 20, 30] [[0, 1, 2], [2, 1]] [true, false, true]).2.1.length =
      ([[0, 1, 2], [2, 1]] : List (List ℕ)).length ∧
    (∀ p : ℕ,
      ((split_by_vertices [10, 20, 30] [[0, 1, 2], [2, 1]] [true, false, true]).2.1.getD p []).length =
      (([[0, 1, 2], [2, 1]] : List (List ℕ)).getD p []).length) ∧
    (split_by_vertices [10, 20, 30] [[0, 1, 2], [2, 1]] [true, false, true]).1.length =
      (split_by_vertices [10, 20, 30] [[0, 1, 2], [2, 1]] [true, false, true]).2.2.1.length ∧
    (∀ p : ℕ,
      p < (split_by_vertices [10, 20, 30] [[0, 1, 2], [2, 1]] [true, false, true]).1.length →
      (split_by_vertices [10, 20, 30] [[0, 1, 2], [2, 1]] [true, false, true]).2.2.1.getD p 0 <
        ([10, 20, 30] : List ℕ).length ∧
      (split_by_vertices [10, 20, 30] [[0, 1, 2], [2, 1]] [true, false, true]).1.getD p default =
        ([10, 20, 30] : List ℕ).getD
          ((split_by_vertices [10, 20, 30] [[0, 1, 2], [2, 1]] [true, false, true]).2.2.1.getD p 0)
          default) :=
  c9_split_by_vertices_safety [10, 20, 30] [[0, 1, 2], [2, 1]] [true, false, true]
    (by decide)


/-- `np.linspace(0, 1, n)` has `n` samples. -/
theorem linspace_length (n : ℕ) : (linspace n).length = n := by
  unfold linspace
  split
  next h => simp [h]
  next =>
    split
    next h1 => simp [h1]
    next => simp

/-- `zip4` of four equal-length lists keeps that length. -/
theorem zip4_length {α β γ δ : Type} :
    ∀ (as : List α) (bs : List β) (cs : List γ) (ds : List δ),
      bs.length = as.length → cs.length = as.length → ds.length = as.length →
      (zip4 as bs cs ds).length = as.length := by
  intro as
  induction as with
  | nil =>
    intro bs cs ds _ _ _
    cases bs <;> cases cs <;> cases ds <;> rfl
  | cons a as ih =>
    intro bs cs ds h1 h2 h3
    cases bs with
    | nil => simp at h1
    | cons b bs =>
      cases cs with
      | nil => simp at h2
      | cons c cs =>
        cases ds with
        | nil => simp at h3
        | cons d ds =>
          simp only [zip4, List.length_cons]
          rw [ih bs cs ds (by simpa using h1) (by simpa using h2) (by simpa using h3)]

/-- Each ring has `k` indices. -/
theorem ringL_length (base k r : ℕ) : (ringL base k r).length = k := by
  simp [ringL]

/-- There are `s` rings. -/
theorem ringsL_length (base k s : ℕ) : (ringsL base k s).length = s := by
  simp [ringsL]

/-- Ring `0` is the `k` fresh indices starting at `base`. -/
theorem ringL_zero (base k : ℕ) :
    ringL base k 0 = (List.range k).map fun i => base + i := by
  simp [ringL]

/-- Shifting the base by one ring advances the ring number. -/
theorem ringL_shift (base k r : ℕ) : ringL (base + k) k r = ringL base k (r + 1) := by
  unfold ringL
  congr 1
  funext i
  ring

/-- Peeling the first of `s + 1` rings. -/
theorem ringsL_succ (base k s : ℕ) :
    ringsL base k (s + 1) = ringL base k 0 :: ringsL (base + k) k s := by
  unfold ringsL
  rw [List.range_succ_eq_map, List.map_cons, List.map_map]
  have hc : (ringL base k ∘ Nat.succ) = ringL (base + k) k := by
    funext r
    simp only [Function.comp_apply]
    exact (ringL_shift base k r).symm
  rw [hc]

/-- A recognized algorithm token always yields a transform. -/
theorem get_matrix_isOk {M : Type} (ml : MathLib M) (cfg : Cfg)
    (halg : cfg.algorithm = "householder" ∨ cfg.algorithm = "track" ∨
      cfg.algorithm = "diff") (tangent : Vec3) (tw sx sy : ℚ) :
    ∃ mat, get_matrix ml cfg tangent tw sx sy = .ok mat := by
  rcases halg with h | h | h <;> simp [get_matrix, h]

/-- The first-ring tracker after `s` further stations. -/
def expFst (fst : Option (List ℕ)) (base k s : ℕ) : Option (List ℕ) :=
  match fst with
  | some l => some l
  | none => if s = 0 then none else some (ringL base k 0)

/-- The previous-ring tracker after `s` further stations. -/
def expPrv (prv : Option (List ℕ)) (base k s : ℕ) : Option (List ℕ) :=
  if s = 0 then prv else some (ringL base k (s - 1))

/-- Characterization of the station loop: with a recognized algorithm it
succeeds, appends one `k`-vertex ring per station, appends exactly the quads
stitching the incoming previous ring (if any) and the fresh rings in order,
and tracks the first and last rings. -/
theorem sweepLoop_spec {M : Type} (ml : MathLib M) (cfg : Cfg) (bverts : List Vec3)
    (bedges : List (ℕ × ℕ))
    (halg : cfg.algorithm = "householder" ∨ cfg.algorithm = "track" ∨
      cfg.algorithm = "diff") :
    ∀ (stations : List Station) (m : Mesh) (fst prv : Option (List ℕ)),
      ∃ vs : List Vec3,
        vs.length = stations.length * bverts.length ∧
        sweepLoop ml cfg bverts bedges stations m fst prv =
          .ok (⟨m.verts ++ vs,
                m.faces ++ stitchChain bedges
                  (optCons prv (ringsL m.verts.length bverts.length stations.length))⟩,
               expFst fst m.verts.length bverts.length stations.length,
               expPrv prv m.verts.length bverts.length stations.length) := by
  intro stations
  induction stations with
  | nil =>
    intro m fst prv
    refine ⟨[], by simp, ?_⟩
    cases m with
    | mk mv mf =>
      cases prv <;> cases fst <;>
        simp [sweepLoop, ringsL, optCons, stitchChain, expFst, expPrv]
  | cons st rest ih =>
    intro m fst prv
    obtain ⟨pos, tan, scl, tw⟩ := st
    obtain ⟨mat, hmat⟩ := get_matrix_isOk ml cfg halg tan tw scl.1 scl.2
    obtain ⟨vs', hlen', heq'⟩ := ih
      ⟨m.verts ++ bverts.map (fun bv => vadd (ml.applyM mat bv) pos),
       m.faces ++ stitchStep bedges prv
         ((List.range bverts.length).map fun i => m.verts.length + i)⟩
      (keepFst fst ((List.range bverts.length).map fun i => m.verts.length + i))
      (some ((List.range bverts.length).map fun i => m.verts.length + i))
    have hstep : sweepLoop ml cfg bverts bedges ((pos, tan, scl, tw) :: rest) m fst prv =
        sweepLoop ml cfg bverts bedges rest
          ⟨m.verts ++ bverts.map (fun bv => vadd (ml.applyM mat bv) pos),
           m.faces ++ stitchStep bedges prv
             ((List.range bverts.length).map fun i => m.verts.length + i)⟩
          (keepFst fst ((List.range bverts.length).map fun i => m.verts.length + i))
          (some ((List.range bverts.length).map fun i => m.verts.length + i)) := by
      simp only [sweepLoop]
      rw [hmat]
    refine ⟨bverts.map (fun bv => vadd (ml.applyM mat bv) pos) ++ vs', ?_, ?_⟩
    · simp only [List.length_append, List.length_map, List.length_cons, hlen']
      ring
    · rw [hstep, heq']
      simp only [List.length_append, List.length_map, List.length_cons]
      rw [ringsL_succ]
      rcases prv with _ | pl <;> rcases fst with _ | fl <;>
        cases hrl : rest.length <;>
          simp_all [optCons, stitchStep, keepFst, expFst, expPrv, stitchChain,
            ringL_zero, ringL_shift, List.append_assoc]

/-- `zip4` length with a common target length. -/
theorem zip4_length_eq {α β γ δ : Type} (as : List α) (bs : List β) (cs : List γ)
    (ds : List δ) (n : ℕ) (ha : as.length = n) (hb : bs.length = n)
    (hc : cs.length = n) (hd : ds.length = n) :
    (zip4 as bs cs ds).length = n := by
  rw [zip4_length as bs cs ds (hb.trans ha.symm) (hc.trans ha.symm) (hd.trans ha.symm)]
  exact ha

/-- The number of stations: `steps`, or `steps - 1` for a cyclic sweep. -/
theorem bevelStations_length {M : Type} (ml : MathLib M) (cfg : Cfg)
    (spline taper twist : Spline) (steps : ℕ) :
    (bevelStations ml cfg spline taper twist steps).length =
      if cfg.is_cyclic then steps - 1 else steps := by
  simp only [bevelStations]
  apply zip4_length_eq
  all_goals
    cases hcy : cfg.is_cyclic <;> cases h1 : cfg.flip_curve <;>
      cases h2 : cfg.flip_taper <;> cases h3 : cfg.flip_twist <;>
      simp [linspace_length]

/-- A path of at least two points always builds a spline. -/
theorem build_spline_ok (sl : SplineLib) (path : List Vec3) (mode : String)
    (cyclic : Bool) (metric : String) (h : 2 ≤ path.length) :
    ∃ sp, build_spline sl path mode cyclic metric = .ok sp := by
  unfold build_spline LinearSpline CubicSpline
  split <;> simp [h]

/-- A path of fewer than two points fails spline construction with
`InvalidInput`. -/
theorem build_spline_err (sl : SplineLib) (path : List Vec3) (mode : String)
    (cyclic : Bool) (metric : String) (h : path.length < 2) :
    build_spline sl path mode cyclic metric = .error "InvalidInput" := by
  unfold build_spline LinearSpline CubicSpline
  split <;> rw [if_neg (by omega)]

/-- Master characterization of `make_bevel` up to the cap/closing phase: for
a recognized algorithm, a valid path, and no explicit profile faces, the
sweep reaches `finishMesh` with `s` rings of `k = |profile|` fresh vertices
(`s = steps`, minus the dropped duplicate when cyclic), the chain of
stitching quads, and the first/last rings tracked. -/
theorem make_bevel_spec {M : Type} (ml : MathLib M) (sl : SplineLib) (cfg : Cfg)
    (curve bverts : List Vec3) (bedges : List (ℕ × ℕ)) (bfaces : List (List ℕ))
    (taper twist : Spline) (steps : ℕ)
    (halg : cfg.algorithm = "householder" ∨ cfg.algorithm = "track" ∨
      cfg.algorithm = "diff")
    (hcurve : 2 ≤ curve.length) (hbf : bfaces = []) :
    ∃ vs : List Vec3,
      vs.length = (if cfg.is_cyclic then steps - 1 else steps) * bverts.length ∧
      make_bevel ml sl cfg curve bverts bedges bfaces taper twist steps =
        finishMesh cfg bedges bfaces
          ⟨vs, stitchChain bedges
            (ringsL 0 bverts.length (if cfg.is_cyclic then steps - 1 else steps))⟩
          (expFst none 0 bverts.length (if cfg.is_cyclic then steps - 1 else steps))
          (expPrv none 0 bverts.length (if cfg.is_cyclic then steps - 1 else steps)) := by
  subst hbf
  obtain ⟨sp, hsp⟩ := build_spline_ok sl curve cfg.bevel_mode cfg.is_cyclic cfg.metric hcurve
  obtain ⟨vs, hlen, hloop⟩ := sweepLoop_spec ml cfg bverts bedges halg
    (bevelStations ml cfg sp taper twist steps) ⟨[], []⟩ none none
  refine ⟨vs, ?_, ?_⟩
  · rw [hlen, bevelStations_length]
  · simp only [make_bevel, hsp]
    rw [if_neg (by simp)]
    rw [hloop]
    simp only [optCons, List.nil_append, bevelStations_length, List.length_nil]

/-- The chain of `r` rings contributes one quad per edge per consecutive
pair: `|E| * (r - 1)` quads. -/
theorem stitchChain_length (E : List (ℕ × ℕ)) :
    ∀ l : List (List ℕ), (stitchChain E l).length = E.length * (l.length - 1) := by
  intro l
  induction l with
  | nil => simp [stitchChain]
  | cons a t ih =>
    cases t with
    | nil => simp [stitchChain]
    | cons b rest =>
      rw [show stitchChain E (a :: b :: rest) =
          E.map (quadOf a b) ++ stitchChain E (b :: rest) from rfl]
      rw [List.length_append, List.length_map, ih]
      simp only [List.length_cons, Nat.add_sub_cancel]
      ring

/-- Every stitched face is a quad. -/
theorem stitchChain_mem_length (E : List (ℕ × ℕ)) :
    ∀ (l : List (List ℕ)) (f : List ℕ), f ∈ stitchChain E l → f.length = 4 := by
  intro l
  induction l with
  | nil => intro f hf; simp [stitchChain] at hf
  | cons a t ih =>
    cases t with
    | nil => intro f hf; simp [stitchChain] at hf
    | cons b rest =>
      intro f hf
      rw [show stitchChain E (a :: b :: rest) =
          E.map (quadOf a b) ++ stitchChain E (b :: rest) from rfl] at hf
      rcases List.mem_append.1 hf with hf | hf
      · obtain ⟨e, _, rfl⟩ := List.mem_map.1 hf
        rfl
      · exact ih f hf

/-- Closed form of the stitching over the fresh rings: for every consecutive
ring pair `(r, r + 1)` and every profile edge, exactly one quad, emitted in
station order then edge order. -/
theorem stitchChain_rings (E : List (ℕ × ℕ)) (k : ℕ) :
    ∀ (s base : ℕ), stitchChain E (ringsL base k s) =
      (List.range (s - 1)).flatMap fun r =>
        E.map (quadOf (ringL base k r) (ringL base k (r + 1))) := by
  intro s
  induction s with
  | zero => intro base; simp [ringsL, stitchChain]
  | succ s' ih =>
    intro base
    rw [ringsL_succ]
    cases s' with
    | zero => simp [ringsL, stitchChain]
    | succ s'' =>
      rw [ringsL_succ]
      rw [show stitchChain E
          (ringL base k 0 :: ringL (base + k) k 0 :: ringsL (base + k + k) k s'') =
          E.map (quadOf (ringL base k 0) (ringL (base + k) k 0)) ++
          stitchChain E (ringL (base + k) k 0 :: ringsL (base + k + k) k s'') from rfl]
      rw [← ringsL_succ, ih (base + k)]
      simp only [Nat.add_sub_cancel]
      rw [List.range_succ_eq_map, List.flatMap_cons, List.flatMap_map]
      simp only [ringL_shift]

/-- The closed profile ring has `k` edges. -/
theorem ringEdges_length (k : ℕ) : (ringEdges k).length = k := by
  simp [ringEdges]

/-- `closingQuads` emits one face per profile edge. -/
theorem closingQuads_length (E : List (ℕ × ℕ)) (fl pl : List ℕ) :
    (closingQuads E fl pl).length = E.length := by
  simp [closingQuads]

/-- Every closing face is a quad. -/
theorem closingQuads_mem_length (E : List (ℕ × ℕ)) (fl pl : List ℕ) (f : List ℕ)
    (hf : f ∈ closingQuads E fl pl) : f.length = 4 := by
  obtain ⟨e, _, rfl⟩ := List.mem_map.1 hf
  rfl

/-- The closing quad of a cyclic sweep is, edge by edge, the cyclic rotation
(by two positions) of the stitching quad `(prev[j], cur[j], cur[i], prev[i])`
taken with `prev` = last ring and `cur` = first ring. -/
theorem closingQuads_rotate (E : List (ℕ × ℕ)) (fl pl : List ℕ) :
    closingQuads E fl pl = E.map fun e => (quadOf pl fl e).rotate 2 := by
  unfold closingQuads
  have hfun : (fun e : ℕ × ℕ =>
      ([fl.getD e.1 0, pl.getD e.1 0, pl.getD e.2 0, fl.getD e.2 0] : List ℕ)) =
      fun e => (quadOf pl fl e).rotate 2 := by
    funext e
    rfl
  rw [hfun]

/-- Stitching with no profile edges produces no faces. -/
theorem stitchChain_nilE : ∀ l : List (List ℕ), stitchChain ([] : List (ℕ × ℕ)) l = [] := by
  intro l
  induction l with
  | nil => rfl
  | cons a t ih =>
    cases t with
    | nil => rfl
    | cons b rest =>
      rw [show stitchChain ([] : List (ℕ × ℕ)) (a :: b :: rest) =
          List.map (quadOf a b) [] ++ stitchChain [] (b :: rest) from rfl]
      simpa using ih

/-- A non-cyclic sweep with both cap flags off keeps the mesh unchanged. -/
theorem finishMesh_plain (cfg : Cfg) (bedges : List (ℕ × ℕ)) (bfaces : List (List ℕ))
    (m : Mesh) (fst prv : Option (List ℕ)) (hcy : cfg.is_cyclic = false)
    (hcs : cfg.cap_start = false) (hce : cfg.cap_end = false) :
    finishMesh cfg bedges bfaces m fst prv = .ok m := by
  simp [finishMesh, hcy, hcs, hce]

/-- A non-cyclic sweep with both cap flags on and no explicit profile faces
adds the reversed first ring and then the last ring as n-gon caps. -/
theorem finishMesh_caps (cfg : Cfg) (bedges : List (ℕ × ℕ)) (m : Mesh)
    (fl pl : List ℕ) (hcy : cfg.is_cyclic = false) (hcs : cfg.cap_start = true)
    (hce : cfg.cap_end = true) :
    finishMesh cfg bedges [] m (some fl) (some pl) =
      .ok ⟨m.verts, (m.faces ++ [fl.reverse]) ++ [pl]⟩ := by
  simp [finishMesh, hcy, hcs, hce, capStartF, capEndF]

/-- A cyclic sweep with no profile edges closes nothing. -/
theorem finishMesh_cyclic_empty (cfg : Cfg) (bfaces : List (List ℕ)) (m : Mesh)
    (fst prv : Option (List ℕ)) (hcy : cfg.is_cyclic = true) :
    finishMesh cfg [] bfaces m fst prv = .ok m := by
  simp [finishMesh, hcy]

/-- A cyclic sweep with profile edges stitches the last ring back to the
first and applies no caps. -/
theorem finishMesh_cyclic (cfg : Cfg) (bedges : List (ℕ × ℕ))
    (bfaces : List (List ℕ)) (m : Mesh) (fl pl : List ℕ)
    (hcy : cfg.is_cyclic = true) (hbe : bedges.isEmpty = false) :
    finishMesh cfg bedges bfaces m (some fl) (some pl) =
      .ok ⟨m.verts, m.faces ++ closingQuads bedges fl pl⟩ := by
  simp [finishMesh, hcy, hbe]

/-- A nonempty closed ring has a nonempty edge list. -/
theorem ringEdges_isEmpty_false (k : ℕ) (hk : 0 < k) :
    (ringEdges k).isEmpty = false := by
  unfold ringEdges
  cases k with
  | zero => omega
  | succ q =>
    rw [List.range_succ_eq_map]
    rfl

/-- C5: sweeping a closed profile ring of `k` vertices and `k` edges over
`n ≥ 2` stations produces `k*n` vertices and `k*(n-1)` quad faces when
non-cyclic without caps, and `k*(n-1)` vertices and `k*(n-1)` quad faces
(including the wrap-around stitch) when cyclic. -/
theorem c5_sweep_counts {M : Type} (ml : MathLib M) (sl : SplineLib) (cfg : Cfg)
    (curve bverts : List Vec3) (taper twist : Spline) (k n : ℕ)
    (halg : cfg.algorithm = "householder" ∨ cfg.algorithm = "track" ∨
      cfg.algorithm = "diff")
    (hcurve : 2 ≤ curve.length) (hk : bverts.length = k) (hn : 2 ≤ n)
    (hcs : cfg.cap_start = false) (hce : cfg.cap_end = false) :
    (cfg.is_cyclic = false →
      ∃ m, make_bevel ml sl cfg curve bverts (ringEdges k) [] taper twist n = .ok m ∧
        m.verts.length = k * n ∧ m.faces.length = k * (n - 1) ∧
        ∀ f ∈ m.faces, f.length = 4) ∧
    (cfg.is_cyclic = true →
      ∃ m, make_bevel ml sl cfg curve bverts (ringEdges k) [] taper twist n = .ok m ∧
        m.verts.length = k * (n - 1) ∧ m.faces.length = k * (n - 1) ∧
        ∀ f ∈ m.faces, f.length = 4) := by
  obtain ⟨vs, hlen, heq⟩ :=
    make_bevel_spec ml sl cfg curve bverts (ringEdges k) [] taper twist n halg hcurve rfl
  rw [hk] at hlen heq
  constructor
  · intro hcy
    simp only [hcy, Bool.false_eq_true, if_false] at hlen heq
    rw [heq, finishMesh_plain cfg _ _ _ _ _ hcy hcs hce]
    refine ⟨_, rfl, ?_, ?_, ?_⟩
    · rw [hlen]
      ring
    · rw [stitchChain_length, ringEdges_length, ringsL_length]
    · intro f hf
      exact stitchChain_mem_length _ _ f hf
  · intro hcy
    simp only [hcy, if_true] at hlen heq
    rcases Nat.eq_zero_or_pos k with hk0 | hkpos
    · subst hk0
      rw [heq, show ringEdges 0 = [] from rfl,
        finishMesh_cyclic_empty cfg _ _ _ _ hcy]
      refine ⟨_, rfl, ?_, ?_, ?_⟩
      · simp [hlen]
      · rw [stitchChain_nilE]
        simp
      · intro f hf
        rw [stitchChain_nilE] at hf
        simp at hf
    · have hs1 : ¬ (n - 1 = 0) := by omega
      rw [heq]
      rw [show expFst none 0 k (n - 1) = some (ringL 0 k 0) by
        simp [expFst, hs1]]
      rw [show expPrv none 0 k (n - 1) = some (ringL 0 k (n - 1 - 1)) by
        simp [expPrv, hs1]]
      rw [finishMesh_cyclic cfg _ _ _ _ _ hcy (ringEdges_isEmpty_false k hkpos)]
      refine ⟨_, rfl, ?_, ?_, ?_⟩
      · rw [hlen]
        ring
      · rw [List.length_append, stitchChain_length, ringEdges_length, ringsL_length,
          closingQuads_length, ringEdges_length]
        have hnn : n - 1 - 1 = n - 2 := by omega
        rw [hnn]
        have hn2 : n - 1 = (n - 2) + 1 := by omega
        rw [hn2, Nat.mul_succ]
      · intro f hf
        rcases List.mem_append.1 hf with hf | hf
        · exact stitchChain_mem_length _ _ f hf
        · exact closingQuads_mem_length _ _ _ f hf

/-- Witness for C5 at a concrete input: square profile (`k = 4`), straight
2-point path, `n = 5`, both in the non-cyclic and the cyclic configuration. -/
theorem c5_sweep_counts_w :
    (∃ m, make_bevel mlTriv slTriv cfgW [vzero, vZ] [vX, vY, vZ, vzero]
        (ringEdges 4) [] spTriv spTriv 5 = .ok m ∧
      m.verts.length = 4 * 5 ∧ m.faces.length = 4 * (5 - 1) ∧
      ∀ f ∈ m.faces, f.length = 4) ∧
    (∃ m, make_bevel mlTriv slTriv { cfgW with is_cyclic := true } [vzero, vZ]
        [vX, vY, vZ, vzero] (ringEdges 4) [] spTriv spTriv 5 = .ok m ∧
      m.verts.length = 4 * (5 - 1) ∧ m.faces.length = 4 * (5 - 1) ∧
      ∀ f ∈ m.faces, f.length = 4) :=
  ⟨(c5_sweep_counts mlTriv slTriv cfgW [vzero, vZ] [vX, vY, vZ, vzero]
      spTriv spTriv 4 5 (Or.inl rfl) (by norm_num) rfl (by norm_num) rfl rfl).1 rfl,
   (c5_sweep_counts mlTriv slTriv { cfgW with is_cyclic := true } [vzero, vZ]
      [vX, vY, vZ, vzero] spTriv spTriv 4 5 (Or.inl rfl) (by norm_num) rfl
      (by norm_num) rfl rfl).2 rfl⟩

/-- C6: a non-cyclic sweep of a `k`-ring with `cap_start = cap_end = true`
and no explicit profile faces appends exactly two extra n-gon cap faces after
the stitching quads — the reversed first ring, then the last ring in ring
order (opposite winding), each referencing exactly `k` vertices — while a
cyclic sweep emits no cap faces at all. -/
theorem c6_cap_faces {M : Type} (ml : MathLib M) (sl : SplineLib) (cfg : Cfg)
    (curve bverts : List Vec3) (taper twist : Spline) (k n : ℕ)
    (halg : cfg.algorithm = "householder" ∨ cfg.algorithm = "track" ∨
      cfg.algorithm = "diff")
    (hcurve : 2 ≤ curve.length) (hk : bverts.length = k) (hn : 2 ≤ n)
    (hcs : cfg.cap_start = true) (hce : cfg.cap_end = true) :
    (cfg.is_cyclic = false →
      ∃ m, make_bevel ml sl cfg curve bverts (ringEdges k) [] taper twist n = .ok m ∧
        m.faces = stitchChain (ringEdges k) (ringsL 0 k n) ++
          [(ringL 0 k 0).reverse, ringL 0 k (n - 1)] ∧
        m.faces.length = k * (n - 1) + 2 ∧
        (ringL 0 k 0).reverse.length = k ∧ (ringL 0 k (n - 1)).length = k) ∧
    (cfg.is_cyclic = true →
      ∃ m, make_bevel ml sl cfg curve bverts (ringEdges k) [] taper twist n = .ok m ∧
        m.faces = stitchChain (ringEdges k) (ringsL 0 k (n - 1)) ++
          closingQuads (ringEdges k) (ringL 0 k 0) (ringL 0 k (n - 1 - 1)) ∧
        m.faces.length = k * (n - 1)) := by
  obtain ⟨vs, hlen, heq⟩ :=
    make_bevel_spec ml sl cfg curve bverts (ringEdges k) [] taper twist n halg hcurve rfl
  rw [hk] at hlen heq
  constructor
  · intro hcy
    simp only [hcy, Bool.false_eq_true, if_false] at hlen heq
    have hn0 : ¬ (n = 0) := by omega
    rw [heq,
      show expFst none 0 k n = some (ringL 0 k 0) by simp [expFst, hn0],
      show expPrv none 0 k n = some (ringL 0 k (n - 1)) by simp [expPrv, hn0],
      finishMesh_caps cfg _ _ _ _ hcy hcs hce]
    refine ⟨_, rfl, ?_, ?_, ?_, ?_⟩
    · simp [List.append_assoc]
    · rw [List.length_append, List.length_append, stitchChain_length,
        ringEdges_length, ringsL_length]
      simp
    · simp [ringL_length]
    · simp [ringL_length]
  · intro hcy
    simp only [hcy, if_true] at hlen heq
    rcases Nat.eq_zero_or_pos k with hk0 | hkpos
    · subst hk0
      rw [heq, show ringEdges 0 = [] from rfl,
        finishMesh_cyclic_empty cfg _ _ _ _ hcy]
      refine ⟨_, rfl, ?_, ?_⟩
      · simp [closingQuads]
      · rw [stitchChain_nilE]
        simp
    · have hs1 : ¬ (n - 1 = 0) := by omega
      rw [heq,
        show expFst none 0 k (n - 1) = some (ringL 0 k 0) by simp [expFst, hs1],
        show expPrv none 0 k (n - 1) = some (ringL 0 k (n - 1 - 1)) by simp [expPrv, hs1],
        finishMesh_cyclic cfg _ _ _ _ _ hcy (ringEdges_isEmpty_false k hkpos)]
      refine ⟨_, rfl, rfl, ?_⟩
      rw [List.length_append, stitchChain_length, ringEdges_length, ringsL_length,
        closingQuads_length, ringEdges_length]
      have h1 : n - 1 - 1 = n - 2 := by omega
      have h2 : n - 1 = (n - 2) + 1 := by omega
      rw [h1, h2, Nat.mul_succ]

/-- Witness for C6 at a concrete input: square profile, 2-point path, `n = 3`,
caps on, in both the non-cyclic and the cyclic configuration. -/
theorem c6_cap_faces_w :
    (∃ m, make_bevel mlTriv slTriv { cfgW with cap_start := true, cap_end := true }
        [vzero, vZ] [vX, vY, vZ, vzero] (ringEdges 4) [] spTriv spTriv 3 = .ok m ∧
      m.faces = stitchChain (ringEdges 4) (ringsL 0 4 3) ++
        [(ringL 0 4 0).reverse, ringL 0 4 (3 - 1)] ∧
      m.faces.length = 4 * (3 - 1) + 2 ∧
      (ringL 0 4 0).reverse.length = 4 ∧ (ringL 0 4 (3 - 1)).length = 4) ∧
    (∃ m, make_bevel mlTriv slTriv
        { cfgW with cap_start := true, cap_end := true, is_cyclic := true }
        [vzero, vZ] [vX, vY, vZ, vzero] (ringEdges 4) [] spTriv spTriv 3 = .ok m ∧
      m.faces = stitchChain (ringEdges 4) (ringsL 0 4 (3 - 1)) ++
        closingQuads (ringEdges 4) (ringL 0 4 0) (ringL 0 4 (3 - 1 - 1)) ∧
      m.faces.length = 4 * (3 - 1)) :=
  ⟨(c6_cap_faces mlTriv slTriv { cfgW with cap_start := true, cap_end := true }
      [vzero, vZ] [vX, vY, vZ, vzero] spTriv spTriv 4 3 (Or.inl rfl) (by norm_num)
      rfl (by norm_num) rfl rfl).1 rfl,
   (c6_cap_faces mlTriv slTriv
      { cfgW with cap_start := true, cap_end := true, is_cyclic := true }
      [vzero, vZ] [vX, vY, vZ, vzero] spTriv spTriv 4 3 (Or.inl rfl) (by norm_num)
      rfl (by norm_num) rfl rfl).2 rfl⟩

/-- C7: between every pair of consecutive rings and for every profile edge
`(i, j)`, the sweep emits exactly one quad, in station order then edge order,
with vertex order `(prev[j], cur[j], cur[i], prev[i])`; the cyclic closing
stitch emits, per edge, a quad with the same cyclic vertex order (a rotation
by two positions) under `prev` = last ring and `cur` = first ring. -/
theorem c7_quad_order {M : Type} (ml : MathLib M) (sl : SplineLib) (cfg : Cfg)
    (curve bverts : List Vec3) (E : List (ℕ × ℕ)) (taper twist : Spline) (n : ℕ)
    (halg : cfg.algorithm = "householder" ∨ cfg.algorithm = "track" ∨
      cfg.algorithm = "diff")
    (hcurve : 2 ≤ curve.length) :
    (cfg.is_cyclic = false → cfg.cap_start = false → cfg.cap_end = false →
      ∃ m, make_bevel ml sl cfg curve bverts E [] taper twist n = .ok m ∧
        m.faces = (List.range (n - 1)).flatMap fun r =>
          E.map (quadOf (ringL 0 bverts.length r) (ringL 0 bverts.length (r + 1)))) ∧
    (cfg.is_cyclic = true → 2 ≤ n → E.isEmpty = false →
      ∃ m, make_bevel ml sl cfg curve bverts E [] taper twist n = .ok m ∧
        m.faces = ((List.range (n - 1 - 1)).flatMap fun r =>
            E.map (quadOf (ringL 0 bverts.length r) (ringL 0 bverts.length (r + 1)))) ++
          E.map fun e =>
            (quadOf (ringL 0 bverts.length (n - 1 - 1))
              (ringL 0 bverts.length 0) e).rotate 2) ∧
    (∀ (pl cl : List ℕ) (i j : ℕ), quadOf pl cl (i, j) =
      [pl.getD j 0, cl.getD j 0, cl.getD i 0, pl.getD i 0]) := by
  obtain ⟨vs, hlen, heq⟩ :=
    make_bevel_spec ml sl cfg curve bverts E [] taper twist n halg hcurve rfl
  refine ⟨?_, ?_, fun pl cl i j => rfl⟩
  · intro hcy hcs hce
    simp only [hcy, Bool.false_eq_true, if_false] at hlen heq
    rw [heq, finishMesh_plain cfg _ _ _ _ _ hcy hcs hce]
    exact ⟨_, rfl, stitchChain_rings E bverts.length n 0⟩
  · intro hcy hn hbe
    simp only [hcy, if_true] at hlen heq
    have hs1 : ¬ (n - 1 = 0) := by omega
    rw [heq,
      show expFst none 0 bverts.length (n - 1) = some (ringL 0 bverts.length 0) by
        simp [expFst, hs1],
      show expPrv none 0 bverts.length (n - 1) =
          some (ringL 0 bverts.length (n - 1 - 1)) by simp [expPrv, hs1],
      finishMesh_cyclic cfg _ _ _ _ _ hcy hbe]
    refine ⟨_, rfl, ?_⟩
    rw [stitchChain_rings E bverts.length (n - 1) 0, closingQuads_rotate]

/-- Witness for C7 at a concrete input: square ring profile, 2-point path,
`n = 3`, non-cyclic and cyclic. -/
theorem c7_quad_order_w :
    (∃ m, make_bevel mlTriv slTriv cfgW [vzero, vZ] [vX, vY, vZ, vzero]
        (ringEdges 4) [] spTriv spTriv 3 = .ok m ∧
      m.faces = (List.range (3 - 1)).flatMap fun r =>
        (ringEdges 4).map (quadOf (ringL 0 4 r) (ringL 0 4 (r + 1)))) ∧
    (∃ m, make_bevel mlTriv slTriv { cfgW with is_cyclic := true } [vzero, vZ]
        [vX, vY, vZ, vzero] (ringEdges 4) [] spTriv spTriv 3 = .ok m ∧
      m.faces = ((List.range (3 - 1 - 1)).flatMap fun r =>
          (ringEdges 4).map (quadOf (ringL 0 4 r) (ringL 0 4 (r + 1)))) ++
        (ringEdges 4).map fun e =>
          (quadOf (ringL 0 4 (3 - 1 - 1)) (ringL 0 4 0) e).rotate 2) :=
  ⟨(c7_quad_order mlTriv slTriv cfgW [vzero, vZ] [vX, vY, vZ, vzero]
      (ringEdges 4) spTriv spTriv 3 (Or.inl rfl) (by norm_num)).1 rfl rfl rfl,
   (c7_quad_order mlTriv slTriv { cfgW with is_cyclic := true } [vzero, vZ]
      [vX, vY, vZ, vzero] (ringEdges 4) spTriv spTriv 3 (Or.inl rfl)
      (by norm_num)).2.1 rfl (by norm_num) rfl⟩

deriving instance DecidableEq for Except

/-- Counterexample for C2 as stated: `make_bevel` performs no validation of
`step_count`; at `steps = 1` (and valid path/profile) it succeeds and
produces a one-ring mesh instead of failing with `InvalidInput`. -/
theorem c2_step1_cex :
    (make_bevel mlTriv slTriv cfgW [vzero, vZ] [vX, vY, vZ, vzero] (ringEdges 4) []
      spTriv spTriv 1).map (fun m => (m.verts.length, m.faces)) =
      .ok (4, ([] : List (List ℕ))) := by
  decide

/-- C2 (amended): an empty (or one-point) `Path` fails with `InvalidInput`
when the path spline is built, but `step_count < 2` is not rejected: with
`steps = 1` the sweep succeeds, producing one profile ring of vertices and no
faces (the configured UI minimum of 4 is the only guard on `steps`). -/
theorem c2_input_validation {M : Type} (ml : MathLib M) (sl : SplineLib) (cfg : Cfg)
    (curve bverts : List Vec3) (bedges : List (ℕ × ℕ)) (bfaces : List (List ℕ))
    (taper twist : Spline) (steps : ℕ) :
    (curve.length < 2 →
      make_bevel ml sl cfg curve bverts bedges bfaces taper twist steps =
        .error "InvalidInput") ∧
    (cfg.is_cyclic = false → cfg.cap_start = false → cfg.cap_end = false →
      (cfg.algorithm = "householder" ∨ cfg.algorithm = "track" ∨
        cfg.algorithm = "diff") → 2 ≤ curve.length →
      ∃ m, make_bevel ml sl cfg curve bverts bedges [] taper twist 1 = .ok m ∧
        m.verts.length = bverts.length ∧ m.faces = []) := by
  constructor
  · intro h
    simp only [make_bevel,
      build_spline_err sl curve cfg.bevel_mode cfg.is_cyclic cfg.metric h]
  · intro hcy hcs hce halg hcurve
    obtain ⟨vs, hlen, heq⟩ :=
      make_bevel_spec ml sl cfg curve bverts bedges [] taper twist 1 halg hcurve rfl
    simp only [hcy, Bool.false_eq_true, if_false] at hlen heq
    rw [heq, finishMesh_plain cfg _ _ _ _ _ hcy hcs hce]
    refine ⟨_, rfl, ?_, ?_⟩
    · simpa using hlen
    · rw [show ringsL 0 bverts.length 1 = [ringL 0 bverts.length 0] from by
        rw [show (1 : ℕ) = 0 + 1 from rfl, ringsL_succ]
        simp [ringsL]]
      rfl

/-- Witness for C2 (amended) at concrete inputs: the empty path errors, and a
square profile with `steps = 1` yields 4 vertices and no faces. -/
theorem c2_input_validation_w :
    make_bevel mlTriv slTriv cfgW [] [vX, vY, vZ, vzero] (ringEdges 4) []
      spTriv spTriv 4 = .error "InvalidInput" ∧
    (∃ m, make_bevel mlTriv slTriv cfgW [vzero, vZ] [vX, vY, vZ, vzero]
        (ringEdges 4) [] spTriv spTriv 1 = .ok m ∧
      m.verts.length = ([vX, vY, vZ, vzero] : List Vec3).length ∧ m.faces = []) :=
  ⟨(c2_input_validation mlTriv slTriv cfgW [] [vX, vY, vZ, vzero] (ringEdges 4) []
      spTriv spTriv 4).1 (by norm_num),
   (c2_input_validation mlTriv slTriv cfgW [vzero, vZ] [vX, vY, vZ, vzero]
      (ringEdges 4) [] spTriv spTriv 4).2 rfl rfl rfl (Or.inl rfl) (by norm_num)⟩

/-- Counterexample for C4 as stated: with `cap_start = true` on a non-cyclic
sweep, a zero-vertex profile does not yield an empty mesh — the cap block
emits a cap face over the empty first ring (the host `bmesh` would in fact
raise on `faces.new([])`), so the result is not `(no vertices, no faces)`. -/
theorem c4_caps_empty_profile_cex :
    (make_bevel mlTriv slTriv { cfgW with cap_start := true } [vzero, vZ] [] [] []
      spTriv spTriv 2).map (fun m => (m.verts, m.faces)) =
      .ok (([] : List Vec3), [([] : List ℕ)]) := by
  decide

/-- C4 (amended): a zero-vertex profile yields an empty mesh (no vertices, no
faces) without error for every flag setting in which no cap block runs — any
cyclic sweep, or a non-cyclic sweep with both cap flags off.  (With a cap
flag set on a non-cyclic sweep, a cap face over the empty ring is emitted
instead; see the counterexample.) -/
theorem c4_empty_profile {M : Type} (ml : MathLib M) (sl : SplineLib) (cfg : Cfg)
    (curve : List Vec3) (taper twist : Spline) (steps : ℕ)
    (halg : cfg.algorithm = "householder" ∨ cfg.algorithm = "track" ∨
      cfg.algorithm = "diff")
    (hcurve : 2 ≤ curve.length)
    (hflags : cfg.is_cyclic = true ∨
      (cfg.cap_start = false ∧ cfg.cap_end = false)) :
    make_bevel ml sl cfg curve [] [] [] taper twist steps = .ok ⟨[], []⟩ := by
  obtain ⟨vs, hlen, heq⟩ :=
    make_bevel_spec ml sl cfg curve [] [] [] taper twist steps halg hcurve rfl
  have hvs : vs = [] := by
    simp only [List.length_nil, Nat.mul_zero] at hlen
    exact List.length_eq_zero.mp hlen
  subst hvs
  rw [heq, stitchChain_nilE]
  cases hcyc : cfg.is_cyclic
  · rcases hflags with h | ⟨hcs, hce⟩
    · simp [hcyc] at h
    · rw [finishMesh_plain cfg _ _ _ _ _ hcyc hcs hce]
  · rw [finishMesh_cyclic_empty cfg _ _ _ _ hcyc]

/-- Witness for C4 (amended) at a concrete input: non-cyclic, caps off,
`steps = 5`, empty profile. -/
theorem c4_empty_profile_w :
    make_bevel mlTriv slTriv cfgW [vzero, vZ] [] [] [] spTriv spTriv 5 =
      .ok ⟨[], []⟩ :=
  c4_empty_profile mlTriv slTriv cfgW [vzero, vZ] spTriv spTriv 5 (Or.inl rfl)
    (by norm_num) (Or.inr ⟨rfl, rfl⟩)
